import Mathlib

/-!
# Verification of the munchkin LCG solver against its specification

This development gives a shallow embedding of the parts of the munchkin
constraint-programming solver that the specification talks about, and proves
(or refutes) the specification's claims against the embedded code.

Conventions used throughout:

* Rust `i32`/`i64` values are embedded as `Int`.  Where a claim's truth depends
  on the machine width this is stated explicitly at the theorem.
* Rust's `/` and `%` on signed integers truncate towards zero; they are embedded
  as `Int.tdiv` and `Int.tmod`.
* Fallible Rust functions returning `Result`/`Option` are embedded as
  `Except`/`Option`; functions taking `&mut self` are embedded by returning the
  updated state alongside the result.
* A few leaf data structures (`AssignmentsPropositional`, `AssignmentsInteger`,
  the predicate/literal vocabulary) are declared in the repository but their
  defining modules are not part of the provided sources; those are modelled
  from the specification and are marked `Modelled from the spec:` in their
  doc comments.  Everything else is translated from the source files.
-/

namespace Munchkin

/-- Modelled from the spec: a dense integer identifier for an integer variable
(`DomainId` in `engine/variables`, module not included in the sources). -/
abbrev DomainId := Nat

/-- Modelled from the spec: a propositional literal is a dense propositional
variable index together with a polarity bit (`Literal` in `engine/variables`,
module not included in the sources). -/
structure Literal where
  var : Nat
  polarity : Bool
deriving DecidableEq

/-- Negation of a literal flips the polarity bit (Rust `!literal`). -/
def Literal.negate (l : Literal) : Literal :=
  ⟨l.var, !l.polarity⟩

/-- Modelled from the spec: comparison operators of atomic constraints. -/
inductive Comparison where
  | greaterThanEqual
  | lessThanEqual
  | equal
  | notEqual
deriving DecidableEq

/-- Modelled from the spec: the solver's `Predicate` vocabulary
(`engine/predicates`, module not included in the sources).  One of the four
integer atomic constraints over a `DomainId`, a propositional literal, or the
constant predicates `True`/`False` (named `alwaysTrue`/`alwaysFalse` here). -/
inductive Predicate where
  | lowerBound (domainId : DomainId) (bound : Int)
  | upperBound (domainId : DomainId) (bound : Int)
  | equality (domainId : DomainId) (value : Int)
  | disequality (domainId : DomainId) (value : Int)
  | lit (literal : Literal)
  | alwaysTrue
  | alwaysFalse
deriving DecidableEq

/-- Modelled from the spec: the integer assignment exposes, for every
`DomainId`, its current lower bound, upper bound and a membership test
(`AssignmentsInteger` in `engine/cp`, module not included in the sources).
Only the read interface used by the embedded code is modelled. -/
structure AssignmentsInteger where
  lowerBound : DomainId → Int
  upperBound : DomainId → Int
  containsValue : DomainId → Int → Bool

/-- Modelled from the spec: bound query on a plain domain. -/
def DomainId.lowerBound (d : DomainId) (assignment : AssignmentsInteger) : Int :=
  assignment.lowerBound d

/-- Modelled from the spec: bound query on a plain domain. -/
def DomainId.upperBound (d : DomainId) (assignment : AssignmentsInteger) : Int :=
  assignment.upperBound d

/-- Modelled from the spec: membership query on a plain domain. -/
def DomainId.containsValue (d : DomainId) (assignment : AssignmentsInteger) (value : Int) : Bool :=
  assignment.containsValue d value

/-- Modelled from the spec: predicate constructors of a plain domain produce
the corresponding atomic predicates. -/
def DomainId.lowerBoundPredicate (d : DomainId) (bound : Int) : Predicate :=
  .lowerBound d bound

/-- Modelled from the spec: see `DomainId.lowerBoundPredicate`. -/
def DomainId.upperBoundPredicate (d : DomainId) (bound : Int) : Predicate :=
  .upperBound d bound

/-- Modelled from the spec: see `DomainId.lowerBoundPredicate`. -/
def DomainId.equalityPredicate (d : DomainId) (value : Int) : Predicate :=
  .equality d value

/-- Modelled from the spec: see `DomainId.lowerBoundPredicate`. -/
def DomainId.disequalityPredicate (d : DomainId) (value : Int) : Predicate :=
  .disequality d value

/-- `NumExt::div_ceil` for `i32` from `engine/variables/affine_view.rs`:
truncating division corrected to round up. -/
def divCeil (a b : Int) : Int :=
  let d := a.tdiv b
  let r := a.tmod b
  if (0 < r ∧ 0 < b) ∨ (r < 0 ∧ b < 0) then d + 1 else d

/-- `NumExt::div_floor` for `i32` from `engine/variables/affine_view.rs`:
truncating division corrected to round down. -/
def divFloor (a b : Int) : Int :=
  let d := a.tdiv b
  let r := a.tmod b
  if (0 < r ∧ b < 0) ∨ (r < 0 ∧ 0 < b) then d - 1 else d

/-- Rounding mode used by `AffineView::invert`
(`engine/variables/affine_view.rs`). -/
inductive Rounding where
  | up
  | down

/-- `AffineView` from `engine/variables/affine_view.rs`, instantiated at its
inner type `DomainId` (the instantiation used by the model lowering): the view
`y = scale * inner + offset`. -/
structure AffineView where
  inner : DomainId
  scale : Int
  offset : Int
deriving DecidableEq

instance : Inhabited AffineView := ⟨⟨0, 1, 0⟩⟩

/-- `AffineView::map`: apply the transformation to a value of the inner
domain. -/
def AffineView.map (v : AffineView) (value : Int) : Int :=
  v.scale * value + v.offset

/-- `AffineView::invert`: apply the inverse transformation with the requested
rounding. -/
def AffineView.invert (v : AffineView) (value : Int) (rounding : Rounding) : Int :=
  let invertedTranslation := value - v.offset
  match rounding with
  | .up => divCeil invertedTranslation v.scale
  | .down => divFloor invertedTranslation v.scale

/-- `IntegerVariable::lower_bound` for `AffineView`: bound queries invert when
the scale is negative. -/
def AffineView.lowerBound (v : AffineView) (assignment : AssignmentsInteger) : Int :=
  if v.scale < 0 then
    v.map (v.inner.upperBound assignment)
  else
    v.map (v.inner.lowerBound assignment)

/-- `IntegerVariable::upper_bound` for `AffineView`. -/
def AffineView.upperBound (v : AffineView) (assignment : AssignmentsInteger) : Int :=
  if v.scale < 0 then
    v.map (v.inner.lowerBound assignment)
  else
    v.map (v.inner.upperBound assignment)

/-- `IntegerVariable::contains` for `AffineView`: values not hit by the
transformation are never contained. -/
def AffineView.containsValue (v : AffineView) (assignment : AssignmentsInteger)
    (value : Int) : Bool :=
  if (value - v.offset).tmod v.scale == 0 then
    v.inner.containsValue assignment (v.invert value .up)
  else
    false

/-- `TransformableVariable::scaled` for `AffineView`. -/
def AffineView.scaled (v : AffineView) (scale : Int) : AffineView :=
  { v with scale := v.scale * scale, offset := v.offset * scale }

/-- `TransformableVariable::offset` for `AffineView` (named `offsetBy` because
`offset` is already the field name). -/
def AffineView.offsetBy (v : AffineView) (offset : Int) : AffineView :=
  { v with offset := v.offset + offset }

/-- `PredicateConstructor::lower_bound_predicate` for `AffineView`. -/
def AffineView.lowerBoundPredicate (v : AffineView) (bound : Int) : Predicate :=
  if v.scale < 0 then
    v.inner.upperBoundPredicate (v.invert bound .down)
  else
    v.inner.lowerBoundPredicate (v.invert bound .up)

/-- `PredicateConstructor::upper_bound_predicate` for `AffineView`. -/
def AffineView.upperBoundPredicate (v : AffineView) (bound : Int) : Predicate :=
  if v.scale < 0 then
    v.inner.lowerBoundPredicate (v.invert bound .up)
  else
    v.inner.upperBoundPredicate (v.invert bound .down)

/-- `PredicateConstructor::equality_predicate` for `AffineView`: trivially the
constant `False` predicate for values not hit by the transformation. -/
def AffineView.equalityPredicate (v : AffineView) (bound : Int) : Predicate :=
  if (bound - v.offset).tmod v.scale == 0 then
    v.inner.equalityPredicate (v.invert bound .up)
  else
    .alwaysFalse

/-- `PredicateConstructor::disequality_predicate` for `AffineView`: trivially
the constant `True` predicate for values not hit by the transformation. -/
def AffineView.disequalityPredicate (v : AffineView) (bound : Int) : Predicate :=
  if (bound - v.offset).tmod v.scale == 0 then
    v.inner.disequalityPredicate (v.invert bound .up)
  else
    .alwaysTrue

/-- `IntVariable` from `model/mod.rs`: a model variable is an id together with
a scale and offset with respect to the underlying solver domain. -/
structure IntVariable where
  scale : Int
  offset : Int
  id : Nat
deriving DecidableEq

/-- `IntVariable::scaled` from `model/mod.rs`. -/
def IntVariable.scaled (v : IntVariable) (scale : Int) : IntVariable :=
  { scale := v.scale * scale, offset := v.offset * scale, id := v.id }

/-- `IntVariable::offset` from `model/mod.rs` (named `offsetBy`, see
`AffineView.offsetBy`). -/
def IntVariable.offsetBy (v : IntVariable) (offset : Int) : IntVariable :=
  { scale := v.scale, offset := v.offset + offset, id := v.id }

/-- `VariableMap` from `model/mod.rs`, keeping the field used by the embedded
operations: the solver view for each variable id. -/
structure VariableMap where
  solverVariables : List AffineView

/-- `VariableMap::to_solver_variable` from `model/mod.rs`. -/
def VariableMap.toSolverVariable (m : VariableMap) (intVar : IntVariable) : AffineView :=
  ((m.solverVariables.getD intVar.id default).scaled intVar.scale).offsetBy intVar.offset

/-- `CheckingContext` from `proof/checking/state.rs`, keeping the fields used
by the embedded operations (the variable map and the scoped integer
assignment). -/
structure CheckingContext where
  variableMap : VariableMap
  assignment : AssignmentsInteger

/-- `CheckingContext::lower_bound` from `proof/checking/state.rs`. -/
def CheckingContext.lowerBound (ctx : CheckingContext) (intVar : IntVariable) : Int :=
  (ctx.variableMap.toSolverVariable intVar).lowerBound ctx.assignment

/-- `Result::or` at the result type of the step checkers. -/
def resultOr (a b : Except Unit Unit) : Except Unit Unit :=
  match a with
  | .ok v => .ok v
  | .error _ => b

/-- `verify` from `proof/checking/inferences/linear.rs`: sum the lower bounds
of the terms (the Rust code sums `i32` bounds as `i64`, which is exact for any
sum of fewer than `2^32` terms; the sum is embedded as `Int`) and accept when
the sum strictly exceeds the right-hand side. -/
def linearVerify (terms : List IntVariable) (rhs : Int)
    (context : CheckingContext) : Except Unit Unit :=
  let leftHandSide := (terms.map (fun term => context.lowerBound term)).sum
  if leftHandSide > rhs then .ok () else .error ()

/-- `verify_linear_equal` from `proof/checking/inferences/mod.rs`: check the
original direction, then the direction with every term scaled by `-1` and the
right-hand side negated, and accept if either accepts. -/
def verifyLinearEqual (terms : List IntVariable) (rhs : Int)
    (context : CheckingContext) : Except Unit Unit :=
  let flippedTerms := terms.map (fun var => var.scaled (-1))
  let flippedRhs := -rhs
  let verifyUpperBound := linearVerify terms rhs context
  let verifyLowerBound := linearVerify flippedTerms flippedRhs context
  resultOr verifyUpperBound verifyLowerBound

/-- C1: for every `LinearLessEqual{terms, rhs}` constraint and every checking
context, the linear inference checker accepts the step iff the sum over all
terms of the term's lower bound in the context strictly exceeds `rhs`; for a
`LinearEqual{terms, rhs}` constraint the step is accepted iff the original
direction or the flipped direction (every term scaled by `-1`, `rhs` negated)
passes that same check. -/
theorem linear_checker_accepts_iff (terms : List IntVariable) (rhs : Int)
    (context : CheckingContext) :
    (linearVerify terms rhs context = .ok () ↔
      (terms.map (fun term => context.lowerBound term)).sum > rhs)
    ∧ (verifyLinearEqual terms rhs context = .ok () ↔
      (linearVerify terms rhs context = .ok () ∨
        linearVerify (terms.map (fun var => var.scaled (-1))) (-rhs) context = .ok ())) := by
  constructor
  · unfold linearVerify
    by_cases h : (terms.map (fun term => context.lowerBound term)).sum > rhs
    · simp [h]
    · simp [h]
  · unfold verifyLinearEqual resultOr
    cases h : linearVerify terms rhs context with
    | ok v => simp [h]
    | error e =>
        cases h2 : linearVerify (terms.map (fun var => var.scaled (-1))) (-rhs) context with
        | ok v => simp [h, h2]
        | error e2 => simp [h, h2]

/-- C6: for every affine view `y = a*x + b` with `a ≠ 0`: when `a < 0` the
lower bound of `y` is `a` times the upper bound of `x` plus `b` and the upper
bound of `y` is `a` times the lower bound of `x` plus `b`; and for every value
`v` with `(v - b) mod a ≠ 0` the equality predicate for `y = v` is the
constant `False` predicate, the disequality predicate for `y ≠ v` is the
constant `True` predicate, and `contains(y, v)` is false. -/
theorem affine_view_inverted_bounds_and_unreachable_values
    (x : DomainId) (a b : Int) (assignment : AssignmentsInteger) (v : Int)
    (ha : a ≠ 0) :
    (a < 0 →
      (AffineView.mk x a b).lowerBound assignment = a * x.upperBound assignment + b ∧
      (AffineView.mk x a b).upperBound assignment = a * x.lowerBound assignment + b)
    ∧ ((v - b).tmod a ≠ 0 →
      (AffineView.mk x a b).equalityPredicate v = .alwaysFalse ∧
      (AffineView.mk x a b).disequalityPredicate v = .alwaysTrue ∧
      (AffineView.mk x a b).containsValue assignment v = false) := by
  refine ⟨fun hneg => ?_, fun hmod => ?_⟩
  · unfold AffineView.lowerBound AffineView.upperBound AffineView.map
    simp [hneg]
  · have hbeq : (((v - b).tmod a) == 0) = false := by
      simpa using hmod
    unfold AffineView.equalityPredicate AffineView.disequalityPredicate
      AffineView.containsValue
    simp [hbeq]

/-- Concrete integer assignment used by the witness below: every domain is
`[3, 5]` with no holes. -/
def affineWitnessAssignment : AssignmentsInteger :=
  { lowerBound := fun _ => 3, upperBound := fun _ => 5, containsValue := fun _ _ => true }

/-- Witness for C6: the view `y = -2 * x + 1` over `x ∈ [3, 5]` has
`lb(y) = -9` and `ub(y) = -5`, and the value `2` (with `(2 - 1) mod -2 ≠ 0`)
gives the constant predicates and is not contained. -/
theorem affine_view_inverted_bounds_witness :
    (AffineView.mk 0 (-2) 1).lowerBound affineWitnessAssignment = -9 ∧
    (AffineView.mk 0 (-2) 1).upperBound affineWitnessAssignment = -5 ∧
    (AffineView.mk 0 (-2) 1).equalityPredicate 2 = .alwaysFalse ∧
    (AffineView.mk 0 (-2) 1).disequalityPredicate 2 = .alwaysTrue ∧
    (AffineView.mk 0 (-2) 1).containsValue affineWitnessAssignment 2 = false := by
  have h := affine_view_inverted_bounds_and_unreachable_values 0 (-2) 1
    affineWitnessAssignment 2 (by decide)
  obtain ⟨hlb, hub⟩ := h.1 (by decide)
  obtain ⟨heq, hdiseq, hcontains⟩ := h.2 (by decide)
  exact ⟨hlb.trans (by decide), hub.trans (by decide), heq, hdiseq, hcontains⟩

/-- The reserved literal that is true at the root (spec §3). -/
def trueLiteral : Literal := ⟨0, true⟩

/-- The reserved literal that is false at the root: the negation of
`trueLiteral` (spec §3). -/
def falseLiteral : Literal := trueLiteral.negate

/-- Modelled from the spec: `VariableLiteralMappings::get_literal` restricted
to lower-bound predicates over a variable with initial domain `[lb, ub]`
(`engine/cp/variable_literal_mappings.rs` is declared but not included in the
sources).  Per spec §4.3, the predicate `x ≥ k` maps to the reserved
`trueLiteral` when `k ≤ lb`, to the reserved `falseLiteral` when `k > ub`,
and otherwise to a lazily created domain literal, abstracted here by the
`freshLiteral` parameter. -/
def getLowerBoundLiteral (freshLiteral : Int → Literal) (lb ub k : Int) : Literal :=
  if k ≤ lb then trueLiteral
  else if ub < k then falseLiteral
  else freshLiteral k

/-- C7: for every integer variable with initial domain `[lb, ub]`, the literal
of `x ≥ k` is the reserved `trueLiteral` for every `k ≤ lb`, and the reserved
`falseLiteral` for every `k ≥ ub + 1`. -/
theorem bound_literals_of_initial_domain (freshLiteral : Int → Literal)
    (lb ub k : Int) (hdom : lb ≤ ub) :
    (k ≤ lb → getLowerBoundLiteral freshLiteral lb ub k = trueLiteral)
    ∧ (ub + 1 ≤ k → getLowerBoundLiteral freshLiteral lb ub k = falseLiteral) := by
  constructor
  · intro hk
    unfold getLowerBoundLiteral
    simp [hk]
  · intro hk
    have h1 : ¬ k ≤ lb := by omega
    have h2 : ub < k := by omega
    unfold getLowerBoundLiteral
    simp [h1, h2]

/-- Witness for C7: with domain `[-2, 2]`, the literal of `x ≥ -2` is the
`trueLiteral` and the literal of `x ≥ 3` is the `falseLiteral` (mirrors the
`new_domain_with_negative_lower_bound` test). -/
theorem bound_literals_of_initial_domain_witness :
    getLowerBoundLiteral (fun _ => ⟨7, true⟩) (-2) 2 (-2) = trueLiteral ∧
    getLowerBoundLiteral (fun _ => ⟨7, true⟩) (-2) 2 3 = falseLiteral := by
  have h := bound_literals_of_initial_domain (fun _ => ⟨7, true⟩) (-2) 2 (-2) (by decide)
  have h2 := bound_literals_of_initial_domain (fun _ => ⟨7, true⟩) (-2) 2 3 (by decide)
  exact ⟨h.1 (by decide), h2.2 (by decide)⟩

/-- Modelled from the spec §3: the reason kind of a Boolean trail entry, one of
decision, clause reference, reason reference, or none (`ConstraintReference`
in `basic_types`, module not included in the sources; `NON_REASON` is the
`nonReason` case). -/
inductive ReasonKind where
  | decision
  | clauseRef (reference : Nat)
  | reasonRef (reference : Nat)
  | nonReason
deriving DecidableEq

/-- Modelled from the spec §3: a Boolean trail entry
`(literal, reason_kind, decision_level)`. -/
structure TrailEntry where
  lit : Literal
  reasonKind : ReasonKind
  level : Nat
deriving DecidableEq

/-- Association-list lookup, first match wins (models a map keyed by dense
integers). -/
def assocLookup {α : Type} : List (Nat × α) → Nat → Option α
  | [], _ => none
  | (k, v) :: rest, key => if k = key then some v else assocLookup rest key

/-- Modelled from the spec §4.2: the Boolean trail
(`engine/sat/assignments_propositional.rs` is declared but not included in the
sources).  It tracks a truth value per propositional variable (the value of
the positive literal), the trail of entries, and the current decision level.
Reserved-literal bookkeeping and polarity phases are not needed by any claim
and are omitted. -/
structure AssignmentsPropositional where
  assignment : List (Nat × Bool)
  trail : List TrailEntry
  decisionLevel : Nat
deriving DecidableEq

/-- The truth value of a literal: the stored value of its variable corrected
by the polarity. -/
def AssignmentsPropositional.valueOf (ap : AssignmentsPropositional) (l : Literal) :
    Option Bool :=
  (assocLookup ap.assignment l.var).map (fun b => b == l.polarity)

/-- Modelled from the spec: a literal is assigned when its variable has a
truth value. -/
def AssignmentsPropositional.isLiteralAssigned (ap : AssignmentsPropositional)
    (l : Literal) : Bool :=
  (assocLookup ap.assignment l.var).isSome

/-- Modelled from the spec: a literal is assigned true when its value is
`true`. -/
def AssignmentsPropositional.isLiteralAssignedTrue (ap : AssignmentsPropositional)
    (l : Literal) : Bool :=
  ap.valueOf l == some true

/-- Modelled from the spec: a literal is assigned false when its value is
`false`. -/
def AssignmentsPropositional.isLiteralAssignedFalse (ap : AssignmentsPropositional)
    (l : Literal) : Bool :=
  ap.valueOf l == some false

/-- Modelled from the spec: a literal is unassigned when it is not assigned. -/
def AssignmentsPropositional.isLiteralUnassigned (ap : AssignmentsPropositional)
    (l : Literal) : Bool :=
  !(ap.isLiteralAssigned l)

/-- Modelled from the spec: a root assignment is an assignment made at
decision level 0 (spec §3: the reserved literals live at decision level 0 and
root-level assignments have no reason). -/
def AssignmentsPropositional.isLiteralRootAssignment (ap : AssignmentsPropositional)
    (l : Literal) : Bool :=
  (ap.trail.find? (fun e => e.lit.var == l.var)).any (fun e => e.level == 0)

/-- Modelled from the spec: a literal is propagated when its trail entry was
not a decision (spec §3: a Boolean trail entry references a decision, a
reason, or no reason; assumptions are enqueued as decisions). -/
def AssignmentsPropositional.isLiteralPropagated (ap : AssignmentsPropositional)
    (l : Literal) : Bool :=
  (ap.trail.find? (fun e => e.lit.var == l.var)).any (fun e => e.reasonKind != .decision)

/-- Modelled from the spec §4.2: `enqueue_decision_literal` records the
literal on the trail as a decision at the current decision level (callers
invoke it only on unassigned literals). -/
def AssignmentsPropositional.enqueueDecisionLiteral (ap : AssignmentsPropositional)
    (l : Literal) : AssignmentsPropositional :=
  { assignment := (l.var, l.polarity) :: ap.assignment,
    trail := ap.trail ++ [⟨l, .decision, ap.decisionLevel⟩],
    decisionLevel := ap.decisionLevel }

/-- Modelled from the spec: a propositional conjunction is a sequence of
predicates (`PropositionalConjunction` in `engine/predicates`, module not
included in the sources). -/
structure PropositionalConjunction where
  predicates : List Predicate
deriving DecidableEq

/-- `PropositionalConjunction::add` appends a predicate. -/
def PropositionalConjunction.add (c : PropositionalConjunction) (p : Predicate) :
    PropositionalConjunction :=
  ⟨c.predicates ++ [p]⟩

/-- Modelled from the spec: conflict information attached to a failed
enqueue or a propagator explanation (`ConflictInfo` in `basic_types`, module
not included in the sources; only the variants exercised by the embedded code
are modelled). -/
inductive ConflictInfo where
  | propagation (l : Literal)
  | explanation (conjunction : PropositionalConjunction)
deriving DecidableEq

/-- Modelled from the spec §4.2: `enqueue_propagated_literal` appends the
literal at the current level with the given reason kind; it returns conflict
information when the literal is already false, and is a no-op when the
literal is already true. -/
def AssignmentsPropositional.enqueuePropagatedLiteral (ap : AssignmentsPropositional)
    (l : Literal) (reasonKind : ReasonKind) :
    Option ConflictInfo × AssignmentsPropositional :=
  match ap.valueOf l with
  | some false => (some (ConflictInfo.propagation l), ap)
  | some true => (none, ap)
  | none =>
      (none,
        { assignment := (l.var, l.polarity) :: ap.assignment,
          trail := ap.trail ++ [⟨l, reasonKind, ap.decisionLevel⟩],
          decisionLevel := ap.decisionLevel })

/-- Modelled from the spec §4.2: `synchronise(level)` removes every trail
entry above the level, unassigns the removed literals, and resets the
decision level. -/
def AssignmentsPropositional.synchronise (ap : AssignmentsPropositional)
    (level : Nat) : AssignmentsPropositional :=
  let removedVars := (ap.trail.filter (fun e => level < e.level)).map (fun e => e.lit.var)
  { assignment := ap.assignment.filter (fun p => !(removedVars.contains p.1)),
    trail := ap.trail.filter (fun e => e.level ≤ level),
    decisionLevel := level }

/-- Modelled from the spec: `get_last_decision` returns the literal of the
most recent decision entry on the trail. -/
def AssignmentsPropositional.getLastDecision? (ap : AssignmentsPropositional) :
    Option Literal :=
  (ap.trail.reverse.find? (fun e => e.reasonKind == .decision)).map (fun e => e.lit)

/-- `Inconsistency` from `basic_types/propagation_status_cp.rs`: a propagator
run either empties a domain or reports explained conflict information. -/
inductive Inconsistency where
  | emptyDomain
  | other (conflictInfo : ConflictInfo)
deriving DecidableEq

/-- Modelled from the spec §4.6: the reason store is an append-only store of
reasons looked up by index (`engine/cp/reason.rs` is declared but not included
in the sources).  Only eager reasons appear in the embedded code paths, so
the lazy-callback variant is not modelled. -/
structure ReasonStore where
  reasons : List PropositionalConjunction
deriving DecidableEq

/-- `ReasonStore::push` appends a reason and returns its reference. -/
def ReasonStore.push (store : ReasonStore) (reason : PropositionalConjunction) :
    Nat × ReasonStore :=
  (store.reasons.length, ⟨store.reasons ++ [reason]⟩)

/-- `PropagationContextMut` from `engine/cp/propagation/propagation_context.rs`,
keeping the fields used by the embedded operations: the Boolean trail, the
reason store, and the optional reification literal.  The integer-assignment
fields are not touched by any embedded operation. -/
structure PropagationContextMut where
  assignmentsPropositional : AssignmentsPropositional
  reasonStore : ReasonStore
  reificationLiteral : Option Literal
deriving DecidableEq

/-- `ReadDomains::is_literal_fixed`: a literal is fixed when it is assigned. -/
def PropagationContextMut.isLiteralFixed (ctx : PropagationContextMut)
    (l : Literal) : Bool :=
  ctx.assignmentsPropositional.isLiteralAssigned l

/-- `ReadDomains::is_literal_true`. -/
def PropagationContextMut.isLiteralTrue (ctx : PropagationContextMut)
    (l : Literal) : Bool :=
  ctx.assignmentsPropositional.isLiteralAssignedTrue l

/-- `PropagationContextMut::with_reification`. -/
def PropagationContextMut.withReification (ctx : PropagationContextMut)
    (reificationLiteral : Literal) : PropagationContextMut :=
  { ctx with reificationLiteral := some reificationLiteral }

/-- `PropagationContextMut::build_reason`: append the reification literal to
the reason when one is set. -/
def PropagationContextMut.buildReason (ctx : PropagationContextMut)
    (reason : PropositionalConjunction) : PropositionalConjunction :=
  match ctx.reificationLiteral with
  | some reificationLiteral => reason.add (.lit reificationLiteral)
  | none => reason

/-- `PropagationContextMut::assign_literal`: when the literal is unassigned,
push the (possibly reified) reason and enqueue the polarised literal as a
propagated literal; surface a conflict as an `Inconsistency`.  (On the
conflict path the Rust code keeps the pushed reason in the store; no embedded
claim observes the state of a conflicting context, so the error carries only
the inconsistency.) -/
def PropagationContextMut.assignLiteral (ctx : PropagationContextMut)
    (l : Literal) (bound : Bool) (reason : PropositionalConjunction) :
    Except Inconsistency PropagationContextMut :=
  if !(ctx.assignmentsPropositional.isLiteralAssigned l) then
    let reasonBuilt := ctx.buildReason reason
    let (reasonRef, store') := ctx.reasonStore.push reasonBuilt
    match ctx.assignmentsPropositional.enqueuePropagatedLiteral
        (if bound then l else l.negate) (.reasonRef reasonRef) with
    | (some conflictInfo, _) => .error (.other conflictInfo)
    | (none, ap') =>
        .ok { ctx with assignmentsPropositional := ap', reasonStore := store' }
  else
    .ok ctx

/-- The wrapped propagator's capabilities used by the reification wrapper:
`Propagator::propagate` and `Propagator::detect_inconsistency` (the latter
takes a read-only view of the same state). -/
structure WrappedPropagator where
  propagate : PropagationContextMut → Except Inconsistency PropagationContextMut
  detectInconsistency : PropagationContextMut → Option PropositionalConjunction

/-- `ReifiedPropagator` from `propagators/reified_propagator.rs`: a propagator
wrapped with a reification literal, remembering a root-level inconsistency
reported by the wrapped propagator during initialisation. -/
structure ReifiedPropagator where
  propagator : WrappedPropagator
  reificationLiteral : Literal
  rootLevelInconsistency : Option PropositionalConjunction

/-- `ReifiedPropagator::propagate_reification`: when the reification literal
is not fixed and the wrapped propagator detects an inconsistency, assign the
reification literal false with the detected conjunction as reason. -/
def ReifiedPropagator.propagateReification (rp : ReifiedPropagator)
    (ctx : PropagationContextMut) : Except Inconsistency PropagationContextMut :=
  if !(ctx.isLiteralFixed rp.reificationLiteral) then
    match rp.propagator.detectInconsistency ctx with
    | some conjunction => ctx.assignLiteral rp.reificationLiteral false conjunction
    | none => .ok ctx
  else
    .ok ctx

/-- `ReifiedPropagator::map_propagation_status`: add the reification literal
to an explained conflict. -/
def ReifiedPropagator.mapPropagationStatus (rp : ReifiedPropagator)
    (status : Except Inconsistency PropagationContextMut) :
    Except Inconsistency PropagationContextMut :=
  match status with
  | .error (.other (.explanation conjunction)) =>
      .error (.other (.explanation (conjunction.add (.lit rp.reificationLiteral))))
  | other => other

/-- `Propagator::propagate` for `ReifiedPropagator` (the `?` early returns of
the Rust code are written as explicit matches on the error case). -/
def ReifiedPropagator.propagate (rp : ReifiedPropagator)
    (ctx : PropagationContextMut) : Except Inconsistency PropagationContextMut :=
  let rootStep : Except Inconsistency PropagationContextMut :=
    if !(ctx.isLiteralFixed rp.reificationLiteral) then
      match rp.rootLevelInconsistency with
      | some conjunction => ctx.assignLiteral rp.reificationLiteral false conjunction
      | none => .ok ctx
    else .ok ctx
  match rootStep with
  | .error e => .error e
  | .ok ctx1 =>
      match rp.propagateReification ctx1 with
      | .error e => .error e
      | .ok ctx2 =>
          if ctx2.isLiteralTrue rp.reificationLiteral then
            rp.mapPropagationStatus
              (rp.propagator.propagate (ctx2.withReification rp.reificationLiteral))
          else
            .ok ctx2

/-- The context produced when the reification wrapper assigns `r` false with
reason `conj`: the reason is pushed onto the reason store and `¬r` is
enqueued as a propagated literal referencing it. -/
def reifiedResultContext (ctx : PropagationContextMut) (r : Literal)
    (conj : PropositionalConjunction) : PropagationContextMut :=
  { assignmentsPropositional :=
      { assignment := (r.var, !r.polarity) :: ctx.assignmentsPropositional.assignment,
        trail := ctx.assignmentsPropositional.trail ++
          [⟨r.negate, .reasonRef ctx.reasonStore.reasons.length,
            ctx.assignmentsPropositional.decisionLevel⟩],
        decisionLevel := ctx.assignmentsPropositional.decisionLevel },
    reasonStore := ⟨ctx.reasonStore.reasons ++ [conj]⟩,
    reificationLiteral := ctx.reificationLiteral }

/-- Root conjunction used by the C2 counterexample. -/
def reifiedRootConjunction : PropositionalConjunction := ⟨[Predicate.alwaysFalse]⟩

/-- Detected conjunction used by the C2 counterexample and witness. -/
def reifiedDetectedConjunction : PropositionalConjunction := ⟨[Predicate.alwaysTrue]⟩

/-- Fresh empty propagation context used by the C2 counterexample and
witness. -/
def reifiedEmptyContext : PropagationContextMut := ⟨⟨[], [], 0⟩, ⟨[]⟩, none⟩

/-- Wrapped propagator used by the C2 counterexample and witness: propagation
is a no-op and `detect_inconsistency` always reports a conjunction. -/
def reifiedTestWrapped : WrappedPropagator :=
  ⟨fun c => .ok c, fun _ => some reifiedDetectedConjunction⟩

/-- Counterexample to C2 as stated: with an unassigned reification literal
`r = ⟨5, true⟩` and a wrapped propagator whose `detect_inconsistency` returns
`reifiedDetectedConjunction`, a wrapper that stored a root-level
inconsistency assigns `r` false with the stored root conjunction
(`reifiedRootConjunction`) as the reason — not with the detected
conjunction.  The resulting reason store holds exactly the root conjunction,
which differs from the detected one. -/
theorem reified_propagator_root_conflict_counterexample :
    (ReifiedPropagator.mk reifiedTestWrapped ⟨5, true⟩
        (some reifiedRootConjunction)).propagate reifiedEmptyContext = .ok
      { assignmentsPropositional :=
          { assignment := [(5, false)],
            trail := [⟨⟨5, false⟩, .reasonRef 0, 0⟩],
            decisionLevel := 0 },
        reasonStore := ⟨[reifiedRootConjunction]⟩,
        reificationLiteral := none }
    ∧ reifiedRootConjunction ≠ reifiedDetectedConjunction := by
  constructor
  · rfl
  · decide

/-- C2 (amended): for every propagator wrapped with reification literal `r`,
when `propagate` is invoked on a fresh context, `r` is not yet fixed, the
wrapped propagator's `detect_inconsistency` returns a conjunction, and the
wrapper stored no root-level inconsistency at initialisation, the wrapper
assigns `r` to false with exactly that conjunction as the reason. -/
theorem reified_propagator_assigns_reification_false (w : WrappedPropagator)
    (r : Literal) (ctx : PropagationContextMut) (conj : PropositionalConjunction)
    (hfresh : ctx.reificationLiteral = none)
    (hunfixed : ctx.isLiteralFixed r = false)
    (hdetect : w.detectInconsistency ctx = some conj) :
    (ReifiedPropagator.mk w r none).propagate ctx = .ok (reifiedResultContext ctx r conj)
    ∧ (reifiedResultContext ctx r conj).assignmentsPropositional.isLiteralAssignedFalse r
        = true := by
  have hlook : assocLookup ctx.assignmentsPropositional.assignment r.var = none := by
    unfold PropagationContextMut.isLiteralFixed
      AssignmentsPropositional.isLiteralAssigned at hunfixed
    cases h : assocLookup ctx.assignmentsPropositional.assignment r.var with
    | none => rfl
    | some v => rw [h] at hunfixed; simp at hunfixed
  have hvar : (r.negate).var = r.var := rfl
  have hval : ctx.assignmentsPropositional.valueOf r.negate = none := by
    unfold AssignmentsPropositional.valueOf
    rw [hvar, hlook]
    rfl
  have hfalse : ((!r.polarity) == r.polarity) = false := by
    cases r.polarity <;> rfl
  constructor
  · unfold ReifiedPropagator.propagate ReifiedPropagator.propagateReification
      PropagationContextMut.assignLiteral PropagationContextMut.buildReason
      PropagationContextMut.isLiteralFixed
    simp only [hdetect, hfresh, ite_self]
    unfold AssignmentsPropositional.isLiteralAssigned
    rw [hlook]
    simp only [Option.isSome_none, Bool.not_false, if_true, ReasonStore.push,
      AssignmentsPropositional.enqueuePropagatedLiteral, hval, Bool.false_eq_true,
      if_false]
    unfold PropagationContextMut.isLiteralTrue AssignmentsPropositional.isLiteralAssignedTrue
      AssignmentsPropositional.valueOf
    simp only [assocLookup, Literal.negate, hvar]
    simp [reifiedResultContext, hfalse, Literal.negate]
    exact hfresh.symm
  · unfold reifiedResultContext AssignmentsPropositional.isLiteralAssignedFalse
      AssignmentsPropositional.valueOf assocLookup
    simp [hfalse]

/-- Witness for C2: on the fresh empty context, with unassigned `r = ⟨5,
true⟩`, no stored root inconsistency and a detected conjunction, `r` is
assigned false with that conjunction as the reason. -/
theorem reified_propagator_assigns_reification_false_witness :
    (ReifiedPropagator.mk reifiedTestWrapped ⟨5, true⟩ none).propagate
        reifiedEmptyContext
      = .ok (reifiedResultContext reifiedEmptyContext ⟨5, true⟩ reifiedDetectedConjunction)
    ∧ (reifiedResultContext reifiedEmptyContext ⟨5, true⟩
        reifiedDetectedConjunction).assignmentsPropositional.isLiteralAssignedFalse
        ⟨5, true⟩ = true :=
  reified_propagator_assigns_reification_false reifiedTestWrapped ⟨5, true⟩
    reifiedEmptyContext reifiedDetectedConjunction rfl (by decide) rfl

/-- `CSPSolverStateInternal` from `engine/constraint_satisfaction_solver.rs`
(the `CSPSolverState` wrapper only holds this enum, so the two are merged). -/
inductive CSPSolverState where
  | ready
  | solving
  | containsSolution
  | conflict (conflictInfo : ConflictInfo)
  | infeasible
  | infeasibleUnderAssumptions (violatedAssumption : Literal)
  | timeout
deriving DecidableEq

/-- `CSPSolverState::conflicting`. -/
def CSPSolverState.conflicting : CSPSolverState → Bool
  | .conflict _ => true
  | _ => false

/-- `CSPSolverState::is_infeasible`. -/
def CSPSolverState.isInfeasible : CSPSolverState → Bool
  | .infeasible => true
  | _ => false

/-- `CSPSolverState::is_infeasible_under_assumptions`. -/
def CSPSolverState.isInfeasibleUnderAssumptions : CSPSolverState → Bool
  | .infeasibleUnderAssumptions _ => true
  | _ => false

/-- `CSPSolverState::is_inconsistent`: conflicting, infeasible, or infeasible
under assumptions. -/
def CSPSolverState.isInconsistent (s : CSPSolverState) : Bool :=
  s.conflicting || s.isInfeasible || s.isInfeasibleUnderAssumptions

/-- `CSPSolverExecutionFlag` from `engine/constraint_satisfaction_solver.rs`. -/
inductive CSPSolverExecutionFlag where
  | feasible
  | infeasible
  | timeout
deriving DecidableEq

/-- `ConstraintSatisfactionSolver` from
`engine/constraint_satisfaction_solver.rs`, keeping the fields used by the
embedded operations: the Boolean trail, the solver state, and the assumption
list. -/
structure ConstraintSatisfactionSolver where
  assignmentsPropositional : AssignmentsPropositional
  state : CSPSolverState
  assumptions : List Literal
deriving DecidableEq

/-- `ConstraintSatisfactionSolver::enqueue_assumption_literal`: three cases —
unassigned (enqueue as decision, succeed), already true (succeed without
enqueueing), falsified (declare infeasible under assumptions, fail). -/
def ConstraintSatisfactionSolver.enqueueAssumptionLiteral
    (s : ConstraintSatisfactionSolver) (assumptionLiteral : Literal) :
    Bool × ConstraintSatisfactionSolver :=
  if s.assignmentsPropositional.isLiteralUnassigned assumptionLiteral then
    (true,
      { s with assignmentsPropositional :=
          s.assignmentsPropositional.enqueueDecisionLiteral assumptionLiteral })
  else if s.assignmentsPropositional.isLiteralAssignedTrue assumptionLiteral then
    (true, s)
  else
    (false, { s with state := .infeasibleUnderAssumptions assumptionLiteral })

/-- `ConstraintSatisfactionSolver::are_all_assumptions_assigned`. -/
def ConstraintSatisfactionSolver.areAllAssumptionsAssigned
    (s : ConstraintSatisfactionSolver) : Bool :=
  s.assumptions.length < s.assignmentsPropositional.decisionLevel

/-- `ConstraintSatisfactionSolver::peek_next_assumption_literal`: at decision
level `i` the `(i-1)`-th assumption is set (the level is increased before
branching).  The Rust indexing panics out of range; the solver never reaches
that state and the embedding returns `none` there. -/
def ConstraintSatisfactionSolver.peekNextAssumptionLiteral
    (s : ConstraintSatisfactionSolver) : Option Literal :=
  if s.areAllAssumptionsAssigned then none
  else s.assumptions.get? (s.assignmentsPropositional.decisionLevel - 1)

/-- `ConstraintSatisfactionSolver::enqueue_next_decision`: try the next
assumption first; otherwise take the brancher's decision (abstracted here as
the already-translated literal `brancherDecision`) or report that a solution
was found. -/
def ConstraintSatisfactionSolver.enqueueNextDecision
    (s : ConstraintSatisfactionSolver) (brancherDecision : Option Literal) :
    Except CSPSolverExecutionFlag Unit × ConstraintSatisfactionSolver :=
  match s.peekNextAssumptionLiteral with
  | some assumptionLiteral =>
      match s.enqueueAssumptionLiteral assumptionLiteral with
      | (false, s1) => (.error .infeasible, s1)
      | (true, s1) => (.ok (), s1)
  | none =>
      match brancherDecision with
      | some literal =>
          (.ok (),
            { s with assignmentsPropositional :=
                s.assignmentsPropositional.enqueueDecisionLiteral literal })
      | none => (.error .feasible, { s with state := .containsSolution })

/-- C3: when the solver enqueues the next assumption literal, exactly three
cases arise: unassigned — enqueued as a decision and solving continues;
already true — accepted without enqueueing anything; falsified — the solver
enters `InfeasibleUnderAssumptions` recording exactly that assumption and the
solve call returns infeasible. -/
theorem enqueue_assumption_literal_cases (s : ConstraintSatisfactionSolver)
    (a : Literal) (brancherDecision : Option Literal)
    (hpeek : s.peekNextAssumptionLiteral = some a) :
    (s.assignmentsPropositional.isLiteralUnassigned a = true →
      s.enqueueNextDecision brancherDecision =
        (.ok (), { s with assignmentsPropositional :=
            s.assignmentsPropositional.enqueueDecisionLiteral a }))
    ∧ (s.assignmentsPropositional.isLiteralAssignedTrue a = true →
      s.enqueueNextDecision brancherDecision = (.ok (), s))
    ∧ (s.assignmentsPropositional.isLiteralAssignedFalse a = true →
      s.enqueueNextDecision brancherDecision =
        (.error .infeasible,
          { s with state := .infeasibleUnderAssumptions a })) := by
  refine ⟨fun hun => ?_, fun htrue => ?_, fun hfalse => ?_⟩
  · unfold ConstraintSatisfactionSolver.enqueueNextDecision
      ConstraintSatisfactionSolver.enqueueAssumptionLiteral
    rw [hpeek]
    simp [hun]
  · have hassigned : s.assignmentsPropositional.isLiteralUnassigned a = false := by
      unfold AssignmentsPropositional.isLiteralAssignedTrue
        AssignmentsPropositional.valueOf at htrue
      unfold AssignmentsPropositional.isLiteralUnassigned
        AssignmentsPropositional.isLiteralAssigned
      cases h : assocLookup s.assignmentsPropositional.assignment a.var with
      | none => rw [h] at htrue; simp at htrue
      | some v => simp
    unfold ConstraintSatisfactionSolver.enqueueNextDecision
      ConstraintSatisfactionSolver.enqueueAssumptionLiteral
    rw [hpeek]
    simp [hassigned, htrue]
  · have hassigned : s.assignmentsPropositional.isLiteralUnassigned a = false := by
      unfold AssignmentsPropositional.isLiteralAssignedFalse
        AssignmentsPropositional.valueOf at hfalse
      unfold AssignmentsPropositional.isLiteralUnassigned
        AssignmentsPropositional.isLiteralAssigned
      cases h : assocLookup s.assignmentsPropositional.assignment a.var with
      | none => rw [h] at hfalse; simp at hfalse
      | some v => simp
    have hnottrue : s.assignmentsPropositional.isLiteralAssignedTrue a = false := by
      unfold AssignmentsPropositional.isLiteralAssignedFalse at hfalse
      unfold AssignmentsPropositional.isLiteralAssignedTrue
      cases h : s.assignmentsPropositional.valueOf a with
      | none => rw [h] at hfalse; simp at hfalse
      | some v =>
          rw [h] at hfalse
          simp at hfalse
          simp [hfalse]
    unfold ConstraintSatisfactionSolver.enqueueNextDecision
      ConstraintSatisfactionSolver.enqueueAssumptionLiteral
    rw [hpeek]
    simp [hassigned, hnottrue]

/-- Concrete solver used by the C3 witness: one assumption `⟨2, true⟩` which
is already falsified at the root, decision level just increased to 1. -/
def assumptionWitnessSolver : ConstraintSatisfactionSolver :=
  { assignmentsPropositional :=
      { assignment := [(2, false)],
        trail := [⟨⟨2, false⟩, .nonReason, 0⟩],
        decisionLevel := 1 },
    state := .solving,
    assumptions := [⟨2, true⟩] }

/-- Witness for C3 (falsified case): the falsified assumption `⟨2, true⟩`
makes the solver report infeasible and record exactly that assumption. -/
theorem enqueue_assumption_literal_cases_witness :
    assumptionWitnessSolver.enqueueNextDecision none =
      (.error .infeasible,
        { assumptionWitnessSolver with
            state := .infeasibleUnderAssumptions ⟨2, true⟩ }) :=
  (enqueue_assumption_literal_cases assumptionWitnessSolver ⟨2, true⟩ none
    (by decide)).2.2 (by decide)

/-- `ConflictAnalysisContext` from
`engine/conflict_analysis/conflict_analysis_context.rs`, keeping the fields
used by the embedded operations: the Boolean trail and the solver state. -/
structure ConflictAnalysisContext where
  assignmentsPropositional : AssignmentsPropositional
  solverState : CSPSolverState
deriving DecidableEq

/-- `ConflictAnalysisContext::get_decision_level`. -/
def ConflictAnalysisContext.getDecisionLevel (context : ConflictAnalysisContext) : Nat :=
  context.assignmentsPropositional.decisionLevel

/-- `ConflictAnalysisContext::get_last_decision` (the Rust code `expect`s the
result; the `none` case models the abort). -/
def ConflictAnalysisContext.getLastDecision? (context : ConflictAnalysisContext) :
    Option Literal :=
  context.assignmentsPropositional.getLastDecision?

/-- `ConflictAnalysisContext::backtrack`: synchronise the Boolean trail to the
backtrack level.  (The source also notifies the brancher of unassigned
literals and rewinds the clausal propagator; no embedded claim observes
those collaborators.) -/
def ConflictAnalysisContext.backtrack (context : ConflictAnalysisContext)
    (backtrackLevel : Nat) : ConflictAnalysisContext :=
  { context with assignmentsPropositional :=
      context.assignmentsPropositional.synchronise backtrackLevel }

/-- `ConflictAnalysisContext::enqueue_propagated_literal`: enqueue with
`ConstraintReference::NON_REASON` (the source asserts the enqueue does not
conflict). -/
def ConflictAnalysisContext.enqueuePropagatedLiteral (context : ConflictAnalysisContext)
    (propagatedLiteral : Literal) : ConflictAnalysisContext :=
  { context with assignmentsPropositional :=
      (context.assignmentsPropositional.enqueuePropagatedLiteral propagatedLiteral
        .nonReason).2 }

/-- `LearnedNogood` from `engine/conflict_analysis/mod.rs`. -/
structure LearnedNogood where
  literals : List Literal
  backjumpLevel : Nat
deriving DecidableEq

/-- `ConflictResolver::resolve_conflict` for `NoLearning`
(`engine/conflict_analysis/no_learning.rs`): no nogood is ever learned. -/
def NoLearning.resolveConflict (_context : ConflictAnalysisContext) :
    Option LearnedNogood :=
  none

/-- `ConflictResolver::process` for `NoLearning`: take the last decision,
backtrack one level, and enqueue its negation as a propagated literal.  The
Rust code returns `Ok(())` unconditionally but `expect`s a last decision;
`none` models that abort. -/
def NoLearning.process (_learnedNogood : Option LearnedNogood)
    (context : ConflictAnalysisContext) : Option ConflictAnalysisContext :=
  match context.getLastDecision? with
  | none => none
  | some lastDecision =>
      let context1 := context.backtrack (context.getDecisionLevel - 1)
      some (context1.enqueuePropagatedLiteral lastDecision.negate)

/-- Looking up a key that the filter removed yields nothing. -/
theorem assocLookup_filter_removed {α : Type} (m : List (Nat × α))
    (removed : List Nat) (k : Nat) (hk : removed.contains k = true) :
    assocLookup (m.filter (fun p => !(removed.contains p.1))) k = none := by
  induction m with
  | nil => rfl
  | cons hd tl ih =>
      obtain ⟨k1, v1⟩ := hd
      rw [List.filter_cons]
      by_cases h : removed.contains k1 = true
      · rw [if_neg (by simpa using h)]
        exact ih
      · have hne : k1 ≠ k := by
          intro hEq
          rw [hEq] at h
          exact h hk
        rw [if_pos (by simp [Bool.not_eq_true] at h; simp [h])]
        unfold assocLookup
        rw [if_neg hne]
        exact ih

/-- Membership gives `contains`. -/
theorem contains_of_mem {a : Nat} {l : List Nat} (h : a ∈ l) :
    l.contains a = true := by
  induction l with
  | nil => cases h
  | cons hd tl ih =>
      rcases List.mem_cons.mp h with hEq | hMem
      · simp [List.contains_cons, hEq]
      · have := ih hMem
        simp only [List.contains_cons, this, Bool.or_true]

/-- C5: with the `NoLearning` conflict resolver, resolving any conflict
produces no learned nogood, and processing backtracks exactly one decision
level (from `L` to `L - 1`) and then enqueues the negation of the last
decision literal as a propagated literal (with no reason). -/
theorem no_learning_backtracks_one_level_and_flips_last_decision
    (context : ConflictAnalysisContext) (learnedNogood : Option LearnedNogood)
    (entry : TrailEntry)
    (hL : 0 < context.getDecisionLevel)
    (hfind : context.assignmentsPropositional.trail.reverse.find?
        (fun e => e.reasonKind == .decision) = some entry)
    (hlevel : context.getDecisionLevel - 1 < entry.level) :
    NoLearning.resolveConflict context = none
    ∧ NoLearning.process learnedNogood context = some
        ((context.backtrack (context.getDecisionLevel - 1)).enqueuePropagatedLiteral
          entry.lit.negate)
    ∧ ((context.backtrack (context.getDecisionLevel - 1)).enqueuePropagatedLiteral
        entry.lit.negate).getDecisionLevel = context.getDecisionLevel - 1
    ∧ ((context.backtrack (context.getDecisionLevel - 1)).enqueuePropagatedLiteral
        entry.lit.negate).assignmentsPropositional.trail =
      context.assignmentsPropositional.trail.filter
          (fun e => e.level ≤ context.getDecisionLevel - 1)
        ++ [⟨entry.lit.negate, .nonReason, context.getDecisionLevel - 1⟩] := by
  have hmem : entry ∈ context.assignmentsPropositional.trail := by
    have h1 := List.mem_of_find?_eq_some hfind
    exact List.mem_reverse.mp h1
  have hmemVar : entry.lit.var ∈
      ((context.assignmentsPropositional.trail.filter
        (fun e => context.getDecisionLevel - 1 < e.level)).map (fun e => e.lit.var)) := by
    refine List.mem_map.mpr ⟨entry, ?_, rfl⟩
    refine List.mem_filter.mpr ⟨hmem, ?_⟩
    simpa using hlevel
  have hcontains : (((context.assignmentsPropositional.trail.filter
      (fun e => context.getDecisionLevel - 1 < e.level)).map
        (fun e => e.lit.var)).contains entry.lit.var) = true :=
    contains_of_mem hmemVar
  have hlookNone : assocLookup
      ((context.backtrack
        (context.getDecisionLevel - 1)).assignmentsPropositional.assignment)
      entry.lit.var = none := by
    unfold ConflictAnalysisContext.backtrack AssignmentsPropositional.synchronise
    exact assocLookup_filter_removed _ _ _ hcontains
  have hvalNone : ((context.backtrack
      (context.getDecisionLevel - 1)).assignmentsPropositional.valueOf
        entry.lit.negate) = none := by
    unfold AssignmentsPropositional.valueOf
    have hvar : entry.lit.negate.var = entry.lit.var := rfl
    rw [hvar, hlookNone]
    rfl
  have hlast : context.getLastDecision? = some entry.lit := by
    unfold ConflictAnalysisContext.getLastDecision?
      AssignmentsPropositional.getLastDecision?
    rw [hfind]
    rfl
  refine ⟨rfl, ?_, ?_, ?_⟩
  · unfold NoLearning.process
    rw [hlast]
  · unfold ConflictAnalysisContext.enqueuePropagatedLiteral
      AssignmentsPropositional.enqueuePropagatedLiteral
    rw [hvalNone]
    rfl
  · unfold ConflictAnalysisContext.enqueuePropagatedLiteral
      AssignmentsPropositional.enqueuePropagatedLiteral
    rw [hvalNone]
    rfl

/-- Concrete context of the C5 witness: a single decision `⟨1, true⟩` at
level 1 and a conflicting solver state. -/
def noLearningWitnessContext : ConflictAnalysisContext :=
  { assignmentsPropositional :=
      { assignment := [(1, true)],
        trail := [⟨⟨1, true⟩, .decision, 1⟩],
        decisionLevel := 1 },
    solverState := .conflict (.propagation ⟨1, false⟩) }

/-- Witness for C5: processing the conflict at level 1 backtracks to level 0
and enqueues `¬⟨1, true⟩` as a propagated literal. -/
theorem no_learning_backtracks_one_level_witness :
    NoLearning.resolveConflict noLearningWitnessContext = none
    ∧ NoLearning.process none noLearningWitnessContext = some
        ((noLearningWitnessContext.backtrack 0).enqueuePropagatedLiteral
          (Literal.negate ⟨1, true⟩))
    ∧ ((noLearningWitnessContext.backtrack 0).enqueuePropagatedLiteral
        (Literal.negate ⟨1, true⟩)).getDecisionLevel = 0
    ∧ ((noLearningWitnessContext.backtrack 0).enqueuePropagatedLiteral
        (Literal.negate ⟨1, true⟩)).assignmentsPropositional.trail =
      [] ++ [⟨Literal.negate ⟨1, true⟩, .nonReason, 0⟩] := by
  have h := no_learning_backtracks_one_level_and_flips_last_decision
    noLearningWitnessContext none ⟨⟨1, true⟩, .decision, 1⟩ (by decide) (by decide)
    (by decide)
  exact ⟨h.1, h.2.1, h.2.2.1, h.2.2.2.trans (by decide)⟩

/-- Result of `ResolutionConflictAnalyser::compute_clausal_core`: the Rust
return type `Result<Vec<Literal>, Literal>` extended with `diverges` for the
`todo!()` branch, which aborts instead of returning. -/
inductive CoreOutcome where
  | ok (core : List Literal)
  | err (violatedAssumption : Literal)
  | diverges
deriving DecidableEq

/-- `ResolutionConflictAnalyser::compute_clausal_core` from
`engine/conflict_analysis/resolution_conflict_analyser.rs`.  Outside the
infeasible-under-assumptions state, `get_violated_assumption` panics
(`diverges`); the standard all-decision case is an unimplemented `todo!()`
and also `diverges`. -/
def computeClausalCore (context : ConflictAnalysisContext) : CoreOutcome :=
  if context.solverState.isInfeasible then .ok []
  else
    match context.solverState with
    | .infeasibleUnderAssumptions violatedAssumption =>
        if context.assignmentsPropositional.isLiteralRootAssignment violatedAssumption then
          .ok [violatedAssumption]
        else if !(context.assignmentsPropositional.isLiteralPropagated violatedAssumption) then
          .err violatedAssumption
        else
          .diverges
    | _ => .diverges

/-- Concrete context of the C4 counterexample: assumptions `x` and `¬x`; the
first (`⟨2, true⟩`) was enqueued as a decision at level 1; the violated
assumption is `¬x = ⟨2, false⟩`, which is neither a root assignment nor
propagated. -/
def coreCounterexampleContext : ConflictAnalysisContext :=
  { assignmentsPropositional :=
      { assignment := [(2, true)],
        trail := [⟨⟨2, true⟩, .decision, 1⟩],
        decisionLevel := 1 },
    solverState := .infeasibleUnderAssumptions ⟨2, false⟩ }

/-- Counterexample to C4 as stated: when the violated assumption is itself an
assumption (not propagated), the code returns it through the `Err` variant of
`compute_clausal_core` instead of returning the singleton core
`Ok([violated])`. -/
theorem compute_clausal_core_counterexample :
    computeClausalCore coreCounterexampleContext = .err ⟨2, false⟩
    ∧ CoreOutcome.err ⟨2, false⟩ ≠ CoreOutcome.ok [⟨2, false⟩] := by
  constructor
  · rfl
  · decide

/-- C4 (amended): in `compute_clausal_core`, when the solver is infeasible
under assumptions with violated assumption `v`: if `v` is a root-level
assignment the result is the singleton core `Ok([v])`; if `v` is not a
propagated literal (it is itself an assumption) the result is `Err(v)`;
otherwise the all-decision resolution walk is an unimplemented `todo!()` and
the call aborts. -/
theorem compute_clausal_core_cases (context : ConflictAnalysisContext)
    (v : Literal)
    (hstate : context.solverState = .infeasibleUnderAssumptions v) :
    (context.assignmentsPropositional.isLiteralRootAssignment v = true →
      computeClausalCore context = .ok [v])
    ∧ (context.assignmentsPropositional.isLiteralRootAssignment v = false →
      context.assignmentsPropositional.isLiteralPropagated v = false →
      computeClausalCore context = .err v)
    ∧ (context.assignmentsPropositional.isLiteralRootAssignment v = false →
      context.assignmentsPropositional.isLiteralPropagated v = true →
      computeClausalCore context = .diverges) := by
  unfold computeClausalCore
  rw [hstate]
  refine ⟨fun hroot => ?_, fun hroot hprop => ?_, fun hroot hprop => ?_⟩
  · simp [CSPSolverState.isInfeasible, hroot]
  · simp [CSPSolverState.isInfeasible, hroot, hprop]
  · simp [CSPSolverState.isInfeasible, hroot, hprop]

/-- Concrete context of the C4 witness: the violated assumption `⟨3, false⟩`
is falsified by a root assignment of its variable at level 0. -/
def coreWitnessContext : ConflictAnalysisContext :=
  { assignmentsPropositional :=
      { assignment := [(3, true)],
        trail := [⟨⟨3, true⟩, .nonReason, 0⟩],
        decisionLevel := 1 },
    solverState := .infeasibleUnderAssumptions ⟨3, false⟩ }

/-- Witness for C4: a root-falsified assumption produces the singleton
core. -/
theorem compute_clausal_core_cases_witness :
    computeClausalCore coreWitnessContext = .ok [⟨3, false⟩] :=
  (compute_clausal_core_cases coreWitnessContext ⟨3, false⟩ rfl).1 (by decide)

/-- `ConstraintOperationError` from `basic_types` (the module is not included
in the sources; the variants are those used by
`engine/constraint_satisfaction_solver.rs`). -/
inductive ConstraintOperationError where
  | infeasiblePropagator
  | infeasibleClause
  | infeasibleState
deriving DecidableEq

/-- The solver as seen by `add_clause`/`add_propagator`
(`engine/constraint_satisfaction_solver.rs`): the state machine, with every
other solver field abstracted into `rest : σ`. -/
structure GenericSolver (σ : Type) where
  state : CSPSolverState
  rest : σ

/-- `ConstraintSatisfactionSolver::add_clause`: an infeasible state is
rejected up front with `InfeasibleState` and nothing is touched; otherwise
the clause is handed to the clausal propagator and propagation runs
(abstracted as `addClauseUnchecked`, whose defining module is not part of the
claim). -/
def GenericSolver.addClause {σ : Type}
    (addClauseUnchecked :
      GenericSolver σ → List Literal → Except ConstraintOperationError Unit × GenericSolver σ)
    (s : GenericSolver σ) (literals : List Literal) :
    Except ConstraintOperationError Unit × GenericSolver σ :=
  if s.state.isInfeasible then (.error .infeasibleState, s)
  else addClauseUnchecked s literals

/-- `ConstraintSatisfactionSolver::add_propagator`: an inconsistent state is
rejected up front with `InfeasiblePropagator` and nothing is touched;
otherwise the propagator is initialised and propagation runs (abstracted as
`initialiseAndPropagate`). -/
def GenericSolver.addPropagator {σ π : Type}
    (initialiseAndPropagate :
      GenericSolver σ → π → Except ConstraintOperationError Unit × GenericSolver σ)
    (s : GenericSolver σ) (propagatorToAdd : π) :
    Except ConstraintOperationError Unit × GenericSolver σ :=
  if s.state.isInconsistent then (.error .infeasiblePropagator, s)
  else initialiseAndPropagate s propagatorToAdd

/-- C8: once the solver is in the infeasible state, every call to
`add_clause` returns `InfeasibleState` immediately and performs no
modification of the solver's state; and whenever the state is inconsistent,
`add_propagator` returns `InfeasiblePropagator`, also without modification. -/
theorem infeasible_solver_rejects_additions {σ π : Type}
    (addClauseUnchecked :
      GenericSolver σ → List Literal → Except ConstraintOperationError Unit × GenericSolver σ)
    (initialiseAndPropagate :
      GenericSolver σ → π → Except ConstraintOperationError Unit × GenericSolver σ)
    (s : GenericSolver σ) (literals : List Literal) (propagatorToAdd : π) :
    (s.state.isInfeasible = true →
      GenericSolver.addClause addClauseUnchecked s literals = (.error .infeasibleState, s))
    ∧ (s.state.isInconsistent = true →
      GenericSolver.addPropagator initialiseAndPropagate s propagatorToAdd =
        (.error .infeasiblePropagator, s)) := by
  constructor
  · intro h
    unfold GenericSolver.addClause
    simp [h]
  · intro h
    unfold GenericSolver.addPropagator
    simp [h]

/-- Witness for C8: a solver in the infeasible state rejects both a clause
and a propagator without modification. -/
theorem infeasible_solver_rejects_additions_witness :
    GenericSolver.addClause (fun s _ => (.ok (), s))
        (GenericSolver.mk (σ := Unit) .infeasible ()) [trueLiteral] =
      (.error .infeasibleState, GenericSolver.mk .infeasible ())
    ∧ GenericSolver.addPropagator (fun s _ => (.ok (), s))
        (GenericSolver.mk (σ := Unit) .infeasible ()) (0 : Nat) =
      (.error .infeasiblePropagator, GenericSolver.mk .infeasible ()) := by
  have h := infeasible_solver_rejects_additions (σ := Unit) (π := Nat)
    (fun s _ => (.ok (), s)) (fun s _ => (.ok (), s))
    (GenericSolver.mk .infeasible ()) [trueLiteral] 0
  exact ⟨h.1 rfl, h.2 rfl⟩

/-- `ConflictReason` from `proof/processing/rp_engine.rs`: an edge of the
conflict, either an RP clause handle or a propagator inference. -/
inductive ConflictReason where
  | clauseHandle (handle : Nat)
  | propagatorStep (premises : List Literal) (propagated : Option Literal)
      (tag : Nat) (label : String)
deriving DecidableEq

/-- The solver operations invoked by the RP engine whose defining modules are
not part of the claim (clausal propagation, clause allocation, backtracking);
they may touch every solver field but not the engine's own clause
bookkeeping, so they are abstracted as an oracle of functions on the embedded
solver. -/
structure SolverOracle where
  declareNewDecisionLevel : ConstraintSatisfactionSolver → ConstraintSatisfactionSolver
  enqueueAndPropagate : ConstraintSatisfactionSolver → Literal →
    Option (List ConflictReason) × ConstraintSatisfactionSolver
  addAllocatedDeletableClause : ConstraintSatisfactionSolver → List Literal →
    Nat × ConstraintSatisfactionSolver
  deleteAllocatedClause : ConstraintSatisfactionSolver → Nat → ConstraintSatisfactionSolver
  backtrackOneLevel : ConstraintSatisfactionSolver → ConstraintSatisfactionSolver

/-- `RpClause` from `proof/processing/rp_engine.rs`: unit clauses are kept on
the trail, longer clauses live in the clause allocator. -/
inductive RpClause where
  | unitClause (literal : Literal)
  | clauseRef (reference : Nat)
deriving DecidableEq

/-- `RpEngine` from `proof/processing/rp_engine.rs`.  `rpClauses` stores, for
each added RP clause in order of addition, its stored form and the input
clause as passed to `add_rp_clause`. -/
structure RpEngine where
  solver : ConstraintSatisfactionSolver
  rpClauses : List (RpClause × List Literal)
  rpUnitClauses : List (Literal × Nat)
  rpAllocatedClauses : List (Nat × Nat)
deriving DecidableEq

/-- `Solver::get_literal_value` as used by the RP engine. -/
def RpEngine.getLiteralValue (e : RpEngine) (literal : Literal) : Option Bool :=
  e.solver.assignmentsPropositional.valueOf literal

/-- `RpEngine::get_propagating_literal`: when all but one literal of the
clause are false, the clause propagates its single assigned literal.  (The
`check_assigned_literals` call only logs a warning and is omitted.) -/
def RpEngine.getPropagatingLiteral (e : RpEngine) (clause : List Literal) :
    Option Literal :=
  if (clause.filter (fun literal => e.getLiteralValue literal == some false)).length
      == clause.length - 1 then
    clause.find? (fun literal => (e.getLiteralValue literal).isSome)
  else
    none

/-- Result of `RpEngine::add_rp_clause`: success or conflict both carry the
handle and the updated engine (the Rust method mutates `self` before the `?`
early return); `assertFailed` models the
`assert!(!filtered_clause.is_empty())` abort. -/
inductive RpAddResult where
  | ok (handle : Nat) (engine : RpEngine)
  | conflictAt (handle : Nat) (reasons : List ConflictReason) (engine : RpEngine)
  | assertFailed

/-- `RpEngine::add_rp_clause` from `proof/processing/rp_engine.rs`: filter out
assigned literals; a unit filtered clause is pushed and enqueued at a new
decision level, a longer one is allocated as a deletable clause and enqueued
when it propagates.  In every non-aborting path the pair
`(stored clause, input clause)` is pushed onto `rpClauses` before propagation
can fail. -/
def RpEngine.addRpClause (oracle : SolverOracle) (e : RpEngine)
    (clause : List Literal) : RpAddResult :=
  let inputClause := clause
  let filteredClause := inputClause.filter (fun literal => (e.getLiteralValue literal).isNone)
  if filteredClause.isEmpty then
    .assertFailed
  else
    let newHandle := e.rpClauses.length
    if filteredClause.length == 1 then
      let firstLiteral := filteredClause.headD trueLiteral
      let e1 := { e with
        rpClauses := e.rpClauses ++ [((RpClause.unitClause firstLiteral), inputClause)],
        rpUnitClauses := (firstLiteral, newHandle) :: e.rpUnitClauses }
      match oracle.enqueueAndPropagate (oracle.declareNewDecisionLevel e1.solver)
          firstLiteral with
      | (some reasons, s2) => .conflictAt newHandle reasons { e1 with solver := s2 }
      | (none, s2) => .ok newHandle { e1 with solver := s2 }
    else
      let propagatingLiteral := e.getPropagatingLiteral filteredClause
      let allocated := oracle.addAllocatedDeletableClause e.solver filteredClause
      let e1 := { e with
        solver := allocated.2,
        rpAllocatedClauses := (allocated.1, newHandle) :: e.rpAllocatedClauses,
        rpClauses := e.rpClauses ++ [((RpClause.clauseRef allocated.1), inputClause)] }
      match propagatingLiteral with
      | some literal =>
          match oracle.enqueueAndPropagate e1.solver literal with
          | (some reasons, s2) => .conflictAt newHandle reasons { e1 with solver := s2 }
          | (none, s2) => .ok newHandle { e1 with solver := s2 }
      | none => .ok newHandle e1

/-- `RpEngine::remove_last_rp_clause` from `proof/processing/rp_engine.rs`:
pop the most recently added RP clause, undo its solver effect, declare the
solver ready again, and return the stored input clause. -/
def RpEngine.removeLastRpClause (oracle : SolverOracle) (e : RpEngine) :
    Option (List Literal) × RpEngine :=
  match e.rpClauses.getLast? with
  | none => (none, e)
  | some (lastRpClause, inputClause) =>
      let e1 := { e with rpClauses := e.rpClauses.dropLast }
      let e2 :=
        match lastRpClause with
        | .unitClause literal =>
            { e1 with
              solver := oracle.backtrackOneLevel e1.solver,
              rpUnitClauses := e1.rpUnitClauses.filter (fun p => !(p.1 == literal)) }
        | .clauseRef reference =>
            { e1 with
              solver := oracle.deleteAllocatedClause e1.solver reference,
              rpAllocatedClauses :=
                e1.rpAllocatedClauses.filter (fun p => !(p.1 == reference)) }
      (some inputClause, { e2 with solver := { e2.solver with state := .ready } })

/-- `Nogood` steps handed to the processor (`drcp_format::steps::Nogood`
instantiated at literal lists; the hint list is not consulted by the embedded
operations). -/
structure NogoodStep where
  id : Nat
  literals : List Literal

/-- `Processor` from `proof/processing/processor.rs`. -/
structure Processor where
  engine : RpEngine
  handles : List (Nat × Nat)

/-- Result of `Processor::add_removable_nogood` (the conflict payload's
translation to step ids by `map_reasons` is elided: no claim inspects it). -/
inductive ProcessorAddResult where
  | ok (processor : Processor)
  | conflictAt (reasons : List ConflictReason) (processor : Processor)
  | assertFailed

/-- `Processor::add_removable_nogood`: add the negated nogood literals as an
RP clause; on success record the step id for the new handle. -/
def Processor.addRemovableNogood (oracle : SolverOracle) (p : Processor)
    (nogood : NogoodStep) : ProcessorAddResult :=
  match RpEngine.addRpClause oracle p.engine (nogood.literals.map Literal.negate) with
  | .ok handle e => .ok { engine := e, handles := (handle, nogood.id) :: p.handles }
  | .conflictAt _handle reasons e => .conflictAt reasons { p with engine := e }
  | .assertFailed => .assertFailed

/-- `Processor::remove_top_nogood`: remove the most recently added RP clause
and negate its literals back into nogood form. -/
def Processor.removeTopNogood (oracle : SolverOracle) (p : Processor) :
    Option (List Literal) × Processor :=
  ((RpEngine.removeLastRpClause oracle p.engine).1.map
      (fun clause => clause.map Literal.negate),
    { p with engine := (RpEngine.removeLastRpClause oracle p.engine).2 })

/-- Literal negation is involutive. -/
theorem Literal.negate_negate (l : Literal) : l.negate.negate = l := by
  cases l with
  | mk v p => simp [Literal.negate]

/-- Negating every literal twice gives back the original list. -/
theorem map_negate_negate (l : List Literal) :
    (l.map Literal.negate).map Literal.negate = l := by
  rw [List.map_map]
  have h : (Literal.negate ∘ Literal.negate) = id := by
    funext x
    exact Literal.negate_negate x
  rw [h, List.map_id]

/-- Composed form of `map_negate_negate`. -/
theorem map_negate_comp (l : List Literal) :
    l.map (Literal.negate ∘ Literal.negate) = l := by
  have h : (Literal.negate ∘ Literal.negate) = id := by
    funext x
    exact Literal.negate_negate x
  rw [h, List.map_id]

/-- In every non-aborting outcome of `add_rp_clause`, the pair of the stored
clause and the input clause has been pushed onto `rpClauses`. -/
theorem addRpClause_pushes (oracle : SolverOracle) (e : RpEngine)
    (clause : List Literal) (handle : Nat) (e' : RpEngine)
    (h : RpEngine.addRpClause oracle e clause = .ok handle e'
      ∨ ∃ reasons, RpEngine.addRpClause oracle e clause = .conflictAt handle reasons e') :
    ∃ storedClause, e'.rpClauses = e.rpClauses ++ [(storedClause, clause)] := by
  rcases h with h | ⟨reasons, h⟩
  · simp only [RpEngine.addRpClause] at h
    split at h
    · exact RpAddResult.noConfusion h
    · split at h
      · split at h
        · exact RpAddResult.noConfusion h
        · injection h with h1 h2
          subst h2
          exact ⟨_, rfl⟩
      · split at h
        · split at h
          · exact RpAddResult.noConfusion h
          · injection h with h1 h2
            subst h2
            exact ⟨_, rfl⟩
        · injection h with h1 h2
          subst h2
          exact ⟨_, rfl⟩
  · simp only [RpEngine.addRpClause] at h
    split at h
    · exact RpAddResult.noConfusion h
    · split at h
      · split at h
        · injection h with h1 h2 h3
          subst h3
          exact ⟨_, rfl⟩
        · exact RpAddResult.noConfusion h
      · split at h
        · split at h
          · injection h with h1 h2 h3
            subst h3
            exact ⟨_, rfl⟩
          · exact RpAddResult.noConfusion h
        · exact RpAddResult.noConfusion h

/-- C9: the processor's nogood store is a stack.  After any successful or
conflicting `add_removable_nogood` of a non-empty nogood,
`remove_top_nogood` returns exactly the literal list that was passed in, in
order, and restores the stored clause list, so successive removals return
the nogoods in reverse order of addition; and `remove_top_nogood` returns
`none` once no nogood remains. -/
theorem processor_nogood_store_is_stack (oracle : SolverOracle)
    (p p' : Processor) (nogood : NogoodStep)
    (hnonempty : nogood.literals ≠ [])
    (hadd : Processor.addRemovableNogood oracle p nogood = .ok p'
      ∨ ∃ reasons, Processor.addRemovableNogood oracle p nogood = .conflictAt reasons p') :
    (Processor.removeTopNogood oracle p').1 = some nogood.literals
    ∧ (Processor.removeTopNogood oracle p').2.engine.rpClauses = p.engine.rpClauses
    ∧ (p.engine.rpClauses = [] → Processor.removeTopNogood oracle p = (none, p)) := by
  have hpush : ∃ storedClause, p'.engine.rpClauses =
      p.engine.rpClauses ++ [(storedClause, nogood.literals.map Literal.negate)] := by
    rcases hadd with h | ⟨reasons, h⟩
    · unfold Processor.addRemovableNogood at h
      cases hres : RpEngine.addRpClause oracle p.engine (nogood.literals.map Literal.negate) with
      | ok handle eng =>
          rw [hres] at h
          injection h with h1
          rw [← h1]
          exact addRpClause_pushes oracle p.engine _ handle eng (Or.inl hres)
      | conflictAt handle reasons2 eng => rw [hres] at h; exact absurd h (by simp)
      | assertFailed => rw [hres] at h; exact absurd h (by simp)
    · unfold Processor.addRemovableNogood at h
      cases hres : RpEngine.addRpClause oracle p.engine (nogood.literals.map Literal.negate) with
      | ok handle eng => rw [hres] at h; exact absurd h (by simp)
      | conflictAt handle reasons2 eng =>
          rw [hres] at h
          injection h with h1 h2
          rw [← h2]
          exact addRpClause_pushes oracle p.engine _ handle eng (Or.inr ⟨reasons2, hres⟩)
      | assertFailed => rw [hres] at h; exact absurd h (by simp)
  obtain ⟨storedClause, hP⟩ := hpush
  have hlast : p'.engine.rpClauses.getLast? =
      some (storedClause, nogood.literals.map Literal.negate) := by
    rw [hP]
    exact List.getLast?_concat _
  have hdrop : p'.engine.rpClauses.dropLast = p.engine.rpClauses := by
    rw [hP]
    exact List.dropLast_concat
  refine ⟨?_, ?_, fun hnil => ?_⟩
  · unfold Processor.removeTopNogood RpEngine.removeLastRpClause
    rw [hlast]
    simp [map_negate_negate, map_negate_comp]
  · unfold Processor.removeTopNogood RpEngine.removeLastRpClause
    rw [hlast]
    cases storedClause with
    | unitClause literal => simpa using hdrop
    | clauseRef reference => simpa using hdrop
  · unfold Processor.removeTopNogood RpEngine.removeLastRpClause
    rw [hnil]
    rfl

/-- Concrete oracle of the C9 witness: propagation never conflicts and the
solver is left untouched. -/
def witnessOracle : SolverOracle :=
  { declareNewDecisionLevel := fun s => s,
    enqueueAndPropagate := fun s _ => (none, s),
    addAllocatedDeletableClause := fun s _ => (0, s),
    deleteAllocatedClause := fun s _ => s,
    backtrackOneLevel := fun s => s }

/-- Concrete empty processor of the C9 witness. -/
def witnessProcessor : Processor :=
  { engine :=
      { solver :=
          { assignmentsPropositional := { assignment := [], trail := [], decisionLevel := 0 },
            state := .ready,
            assumptions := [] },
        rpClauses := [],
        rpUnitClauses := [],
        rpAllocatedClauses := [] },
    handles := [] }

/-- The processor obtained by adding the nogood `[⟨4, true⟩, ⟨6, false⟩]` to
the empty witness processor (its negation is stored as an allocated
clause). -/
def witnessProcessorAfterAdd : Processor :=
  { engine :=
      { solver := witnessProcessor.engine.solver,
        rpClauses := [(.clauseRef 0, [⟨4, false⟩, ⟨6, true⟩])],
        rpUnitClauses := [],
        rpAllocatedClauses := [(0, 0)] },
    handles := [(0, 1)] }

/-- Witness for C9: after adding the nogood `[⟨4, true⟩, ⟨6, false⟩]`,
removing the top nogood returns exactly those literals in order and empties
the store, and a removal from the empty processor returns `none`. -/
theorem processor_nogood_store_is_stack_witness :
    (Processor.removeTopNogood witnessOracle witnessProcessorAfterAdd).1
      = some [⟨4, true⟩, ⟨6, false⟩]
    ∧ (Processor.removeTopNogood witnessOracle witnessProcessorAfterAdd).2.engine.rpClauses
      = []
    ∧ Processor.removeTopNogood witnessOracle witnessProcessor =
        (none, witnessProcessor) := by
  have h := processor_nogood_store_is_stack witnessOracle witnessProcessor
    witnessProcessorAfterAdd ⟨1, [⟨4, true⟩, ⟨6, false⟩]⟩ (by decide)
    (Or.inl rfl)
  exact ⟨h.1, h.2.1, h.2.2 rfl⟩

/-- `Atomic` constraints of the proof format
(`drcp_format::IntAtomicConstraint` over named variables). -/
structure Atomic where
  name : String
  comparison : Comparison
  value : Int
deriving DecidableEq

/-- `BTreeMap::contains_key` on the association-list model. -/
def assocContainsKey {α : Type} (m : List (Nat × α)) (key : Nat) : Bool :=
  (assocLookup m key).isSome

/-- `BTreeMap::insert` on the association-list model: replace the value of an
existing key in place (returning the old value) or append the new binding. -/
def btreeInsert {α : Type} : List (Nat × α) → Nat → α → Option α × List (Nat × α)
  | [], key, val => (none, [(key, val)])
  | (k, v) :: rest, key, val =>
      if k = key then (some v, (key, val) :: rest)
      else
        ((btreeInsert rest key val).1, (k, v) :: (btreeInsert rest key val).2)

/-- The first component of `btreeInsert` is the previous binding. -/
theorem btreeInsert_fst {α : Type} (m : List (Nat × α)) (key : Nat) (val : α) :
    (btreeInsert m key val).1 = assocLookup m key := by
  induction m with
  | nil => rfl
  | cons hd tl ih =>
      obtain ⟨k, v⟩ := hd
      by_cases h : k = key
      · simp [btreeInsert, assocLookup, h]
      · simp [btreeInsert, assocLookup, h, ih]

/-- `CheckingState` from `proof/checking/state.rs`, keeping the recorded
nogoods and inferences keyed by step id (the model, assignment and variable
map fields are not touched by the embedded operations). -/
structure CheckingState where
  nogoods : List (Nat × List Atomic)
  inferences : List (Nat × (List Atomic × Option Atomic))
deriving DecidableEq

/-- `CheckingState::record_nogood`: an id already used by an inference is
rejected up front; otherwise the nogood is inserted, and a previous nogood
under the same id causes an error — after the insertion has already replaced
it. -/
def CheckingState.recordNogood (s : CheckingState) (stepId : Nat)
    (nogood : List Atomic) : Except Unit Unit × CheckingState :=
  if assocContainsKey s.inferences stepId then
    (.error (), s)
  else
    match btreeInsert s.nogoods stepId nogood with
    | (some _, nogoods1) => (.error (), { s with nogoods := nogoods1 })
    | (none, nogoods1) => (.ok (), { s with nogoods := nogoods1 })

/-- `CheckingState::record_inference`: symmetric to
`CheckingState.recordNogood`. -/
def CheckingState.recordInference (s : CheckingState) (stepId : Nat)
    (premises : List Atomic) (conclusion : Option Atomic) :
    Except Unit Unit × CheckingState :=
  if assocContainsKey s.nogoods stepId then
    (.error (), s)
  else
    match btreeInsert s.inferences stepId (premises, conclusion) with
    | (some _, inferences1) => (.error (), { s with inferences := inferences1 })
    | (none, inferences1) => (.ok (), { s with inferences := inferences1 })

/-- Atomic constraint used by the C10 counterexample. -/
def atomicX : Atomic := ⟨"x", .greaterThanEqual, 1⟩

/-- Counterexample to C10 as stated: recording a nogood twice under step id 1
returns an error on the second call, but the earlier record has been
overwritten — the store now holds the second nogood `[]`, not the first
`[atomicX]`. -/
theorem record_nogood_overwrites_counterexample :
    (CheckingState.recordNogood
        ((CheckingState.recordNogood ⟨[], []⟩ 1 [atomicX]).2) 1 []).1 = .error ()
    ∧ assocLookup
        ((CheckingState.recordNogood
          ((CheckingState.recordNogood ⟨[], []⟩ 1 [atomicX]).2) 1 []).2).nogoods 1
      = some []
    ∧ some ([] : List Atomic) ≠ some [atomicX] := by
  refine ⟨rfl, rfl, ?_⟩
  decide

/-- C10 (amended): recording a nogood or inference under a step id that is
already used returns an error; when the existing record is of the other kind
the state is unchanged, but when it is of the same kind the stored record is
replaced by the new one before the error is returned.  A fresh id succeeds. -/
theorem record_step_id_collisions (s : CheckingState) (stepId : Nat)
    (nogood premises : List Atomic) (conclusion : Option Atomic) :
    (assocContainsKey s.inferences stepId = true →
      s.recordNogood stepId nogood = (.error (), s))
    ∧ (assocContainsKey s.inferences stepId = false →
      assocContainsKey s.nogoods stepId = true →
      s.recordNogood stepId nogood =
        (.error (), { s with nogoods := (btreeInsert s.nogoods stepId nogood).2 }))
    ∧ (assocContainsKey s.inferences stepId = false →
      assocContainsKey s.nogoods stepId = false →
      s.recordNogood stepId nogood =
        (.ok (), { s with nogoods := (btreeInsert s.nogoods stepId nogood).2 }))
    ∧ (assocContainsKey s.nogoods stepId = true →
      s.recordInference stepId premises conclusion = (.error (), s))
    ∧ (assocContainsKey s.nogoods stepId = false →
      assocContainsKey s.inferences stepId = true →
      s.recordInference stepId premises conclusion =
        (.error (), { s with inferences :=
          (btreeInsert s.inferences stepId (premises, conclusion)).2 }))
    ∧ (assocContainsKey s.nogoods stepId = false →
      assocContainsKey s.inferences stepId = false →
      s.recordInference stepId premises conclusion =
        (.ok (), { s with inferences :=
          (btreeInsert s.inferences stepId (premises, conclusion)).2 })) := by
  have hNg := btreeInsert_fst s.nogoods stepId nogood
  have hInf := btreeInsert_fst s.inferences stepId (premises, conclusion)
  refine ⟨fun h1 => ?_, fun h1 h2 => ?_, fun h1 h2 => ?_,
    fun h1 => ?_, fun h1 h2 => ?_, fun h1 h2 => ?_⟩
  · unfold CheckingState.recordNogood
    simp [h1]
  · unfold CheckingState.recordNogood
    rw [if_neg (by simp [h1])]
    unfold assocContainsKey at h2
    split
    next hsome heq => rw [heq]
    next hnone heq =>
        rw [heq] at hNg
        rw [← hNg] at h2
        simp at h2
  · unfold CheckingState.recordNogood
    rw [if_neg (by simp [h1])]
    unfold assocContainsKey at h2
    split
    next hsome heq =>
        rw [heq] at hNg
        rw [← hNg] at h2
        simp at h2
    next hnone heq => rw [heq]
  · unfold CheckingState.recordInference
    simp [h1]
  · unfold CheckingState.recordInference
    rw [if_neg (by simp [h1])]
    unfold assocContainsKey at h2
    split
    next hsome heq => rw [heq]
    next hnone heq =>
        rw [heq] at hInf
        rw [← hInf] at h2
        simp at h2
  · unfold CheckingState.recordInference
    rw [if_neg (by simp [h1])]
    unfold assocContainsKey at h2
    split
    next hsome heq =>
        rw [heq] at hInf
        rw [← hInf] at h2
        simp at h2
    next hnone heq => rw [heq]

/-- Witness for C10: on a state holding nogood id 1 and inference id 2, a
nogood with the inference's id is rejected without modification, a nogood
with the nogood's id is rejected after replacing the record, and a fresh id
succeeds. -/
theorem record_step_id_collisions_witness :
    (CheckingState.recordNogood ⟨[(1, [atomicX])], [(2, ([], none))]⟩ 2 []) =
      (.error (), ⟨[(1, [atomicX])], [(2, ([], none))]⟩)
    ∧ (CheckingState.recordNogood ⟨[(1, [atomicX])], [(2, ([], none))]⟩ 1 []) =
      (.error (), ⟨[(1, [])], [(2, ([], none))]⟩)
    ∧ (CheckingState.recordNogood ⟨[(1, [atomicX])], [(2, ([], none))]⟩ 3 []) =
      (.ok (), ⟨[(1, [atomicX]), (3, [])], [(2, ([], none))]⟩) := by
  have h := record_step_id_collisions ⟨[(1, [atomicX])], [(2, ([], none))]⟩ 2 [] [] none
  have h2 := record_step_id_collisions ⟨[(1, [atomicX])], [(2, ([], none))]⟩ 1 [] [] none
  have h3 := record_step_id_collisions ⟨[(1, [atomicX])], [(2, ([], none))]⟩ 3 [] [] none
  refine ⟨h.1 rfl, ?_, ?_⟩
  · have := h2.2.1 rfl rfl
    exact this.trans (by rfl)
  · have := h3.2.2.1 rfl rfl
    exact this.trans (by rfl)

end Munchkin
